import Mathlib

/-!
Verification of the stateloop run-loop scheduler and state-machine dispatcher.

The model is a shallow embedding of `src/src/app.rs`, `src/src/state.rs` and
`src/src/error.rs`:

* `Action` embeds `state::Action` (state.rs lines 23-28).
* `State` embeds the trait `state::State<Data>` (state.rs lines 30-34): a state
  value is consumed by each dispatch call; `handle_event` may replace the data
  and yields an `Action`, while `handle_tick` and `handle_render` return `()` in
  the source and therefore can only transform the data, never the state value.
* Durations are modelled as natural numbers of milliseconds.  `Duration`
  subtraction in Rust aborts on underflow, modelled by `duration_sub` returning
  `Option`.
* `handle_events_go` / `handle_events` embed `App::handle_events`
  (app.rs lines 75-102): the drain delivers every queued event in order,
  threading the state value and a quit flag, and returns `None` exactly when
  the flag was set.
* `catch_up` embeds the catch-up `while accum >= spf` loop (app.rs lines
  118-122).  The source loop has no termination guarantee when `spf = 0`, so
  the model is fuel-indexed: `none` means the fuel ran out, and we prove that
  for `spf = 0` every fuel value yields `none` while for `0 < spf` the fuel
  `accum + 1` always suffices.
* `process_frame` embeds one iteration of the `while let` loop of `App::run`
  (app.rs lines 110-125) and `run_loop` iterates it over a schedule of frames,
  each frame being the list of drained events together with the elapsed
  wall-clock time `now - prev` observed by that iteration.
* Every dispatch call is recorded in a `Call` trace so that ordering claims
  (state continuity, quit immediacy) are statements about the trace.
* `spf_millis` embeds `Duration::from_millis((1000.0 / fps as f64) as u64)`
  (app.rs line 108).  For `1 ≤ fps < 2^32` the `f64` quotient `1000.0 / fps`
  carries a relative error below `2^-52`, while the distance from the exact
  rational `1000/fps` to the nearest integer it is not equal to is at least
  `1/fps ≥ 2^-32`; hence truncating the `f64` quotient agrees with natural
  floor division.  For `fps = 0` the quotient is `+inf` and the `as u64` cast
  saturates to `u64::MAX`.
* The `states!` macro (state.rs lines 36-79) expands, for a specification
  listing variants with their capability trait and payload, to a tagged union
  and three dispatch functions, each an exhaustive `match` with one arm per
  variant and no fallback arm.  `dispatch_event_arms`, `dispatch_tick_arms`
  and `dispatch_render_arms` model the generated match: the arm list is walked
  structurally, an in-range tag selects exactly the arm of its variant, and a
  tag beyond the arms reaches nothing (`none`), there being no default arm.
* `AppError` embeds `error::AppError` (error.rs lines 39-43).  `app_new` is
  modelled from the spec (see its doc comment).
-/

namespace Stateloop

variable {S D E P : Type}

/-- Embeds `state::Action` (state.rs lines 23-28). -/
inductive Action (S : Type) where
  | Continue : Action S
  | Done (next : S) : Action S
  | Quit : Action S
deriving DecidableEq

/-- Embeds the trait `state::State<Data>` (state.rs lines 30-34).  `handle_event`
consumes the state value and the current data and returns an `Action` together
with the possibly mutated data; `handle_tick` and `handle_render` return `()`
in the source, so they are modelled as transformations of the data alone. -/
structure State (S D E : Type) where
  handle_event : S → D → E → Action S × D
  handle_tick : S → D → D
  handle_render : S → D → D

/-- One recorded dispatch call of the scheduler: which operation ran, and on
which state value it was invoked.  Event entries also record the event and the
`Action` the handler returned. -/
inductive Call (S E : Type) where
  | event (s : S) (e : E) (a : Action S) : Call S E
  | render (s : S) : Call S E
  | tick (s : S) : Call S E
deriving DecidableEq

/-- The state value a dispatch call was invoked on. -/
def Call.stateOf : Call S E → S
  | .event s _ _ => s
  | .render s => s
  | .tick s => s

/-- Embeds the `state = match state.handle_event(..) { .. }` assignment of
app.rs lines 87-94: `Continue` keeps the state, `Done(next)` replaces it,
`Quit` keeps it (while separately setting the quit flag). -/
def step_state (s : S) (a : Action S) : S :=
  match a with
  | .Continue => s
  | .Done next => next
  | .Quit => s

/-- Embeds the `quit = true` assignment of app.rs line 91: the flag is set on
`Quit` and never reset. -/
def step_quit (q : Bool) (a : Action S) : Bool :=
  match a with
  | .Quit => true
  | _ => q

/-- The state value the scheduler holds after the call: an event returning
`Done next` replaces the state with `next` (app.rs line 89); every other call
leaves it unchanged (app.rs lines 88, 90-93, 112, 121). -/
def Call.next_state : Call S E → S
  | .event s _ a => step_state s a
  | .render s => s
  | .tick s => s

/-- Whether the call is an event dispatch. -/
def Call.isEvent : Call S E → Bool
  | .event _ _ _ => true
  | _ => false

/-- Whether the call is a tick dispatch. -/
def Call.isTick : Call S E → Bool
  | .tick _ => true
  | _ => false

/-- Whether the call is a render dispatch. -/
def Call.isRender : Call S E → Bool
  | .render _ => true
  | _ => false

/-- Whether the call is an event dispatch whose handler returned `Quit`. -/
def Call.isQuitEvent : Call S E → Bool
  | .event _ _ .Quit => true
  | _ => false

/-- Trace well-formedness relative to a scheduler state `s`: the first call is
invoked on `s`, and each later call is invoked on the state left behind by its
predecessor. -/
def chained (s : S) : List (Call S E) → Prop
  | [] => True
  | c :: rest => c.stateOf = s ∧ chained c.next_state rest

/-- The scheduler state left after running an entire trace, starting from `s`. -/
def last_next (s : S) : List (Call S E) → S
  | [] => s
  | c :: rest => last_next c.next_state rest

/-- After any event call that returned `Quit`, only event calls may follow in
the trace (the drain of app.rs lines 81-95 still delivers the rest of the
batch, but the loop then exits, so no tick or render ever follows). -/
def quit_tail : List (Call S E) → Prop
  | [] => True
  | c :: rest => (c.isQuitEvent = true → ∀ c' ∈ rest, c'.isEvent = true) ∧ quit_tail rest

/-- Embeds the body of the `poll_events` closure of `App::handle_events`
(app.rs lines 81-95), iterated over the queued events in arrival order: the
returned quadruple is the recorded trace, the final value of the mutable
`state` variable, the final data, and the final value of the `quit` flag. -/
def handle_events_go (impl : State S D E) :
    List E → S → D → Bool → List (Call S E) × S × D × Bool
  | [], s, d, q => ([], s, d, q)
  | e :: es, s, d, q =>
    let r := handle_events_go impl es (step_state s (impl.handle_event s d e).1)
      (impl.handle_event s d e).2 (step_quit q (impl.handle_event s d e).1)
    (Call.event s e (impl.handle_event s d e).1 :: r.1, r.2)

/-- Embeds `App::handle_events` (app.rs lines 75-102): drain every queued
event, then return `none` exactly when the `quit` flag was set, otherwise the
final state value.  The middle component is the `Option<S>` result. -/
def handle_events (impl : State S D E) (events : List E) (s : S) (d : D) :
    List (Call S E) × Option S × D :=
  let r := handle_events_go impl events s d false
  (r.1, if r.2.2.2 = true then none else some r.2.1, r.2.2.1)

/-- Rust `Duration` subtraction: defined only when no underflow occurs
(`Sub for Duration` aborts the program otherwise). -/
def duration_sub (a b : Nat) : Option Nat :=
  if b ≤ a then some (a - b) else none

/-- Embeds the catch-up loop `while accum >= spf { accum -= spf; tick }`
(app.rs lines 118-122), fuel-indexed because the source loop does not
terminate when `spf = 0`.  Returns the recorded tick calls, the final
accumulator and the final data, or `none` when the fuel is exhausted. -/
def catch_up (impl : State S D E) (spf : Nat) (s : S) :
    Nat → Nat → D → Option (List (Call S E) × Nat × D)
  | 0, _, _ => none
  | fuel + 1, accum, d =>
    if spf ≤ accum then
      match catch_up impl spf s fuel (accum - spf) (impl.handle_tick s d) with
      | none => none
      | some (tr, a, d') => some (Call.tick s :: tr, a, d')
    else
      some ([], accum, d)

/-- Result of one iteration of the `while let` loop of `App::run`. -/
inductive FrameResult (S D E : Type) where
  | quit (trace : List (Call S E)) (data : D) : FrameResult S D E
  | running (trace : List (Call S E)) (state : S) (data : D) (accum : Nat)
      (sleep : Option Nat) : FrameResult S D E
  | diverged (trace : List (Call S E)) : FrameResult S D E
deriving DecidableEq

/-- Embeds one iteration of `App::run` (app.rs lines 110-125): evaluate the
loop condition `handle_events`; on `None` the loop exits with no render, tick
or sleep for this iteration; otherwise render on the updated state, add the
elapsed time to the accumulator, run the catch-up loop (fuel `accum + elapsed
+ 1`, sufficient whenever `0 < spf`), and compute the sleep argument
`spf - accum`.  `diverged` marks a catch-up loop that consumed all fuel. -/
def process_frame (impl : State S D E) (spf : Nat) (events : List E)
    (elapsed : Nat) (s : S) (d : D) (accum : Nat) : FrameResult S D E :=
  match handle_events impl events s d with
  | (etr, none, d') => .quit etr d'
  | (etr, some s', d') =>
    let d₂ := impl.handle_render s' d'
    let accum₁ := accum + elapsed
    match catch_up impl spf s' (accum₁ + 1) accum₁ d₂ with
    | none => .diverged (etr ++ [Call.render s'])
    | some (ttr, accum₂, d₃) =>
      .running (etr ++ Call.render s' :: ttr) s' d₃ accum₂ (duration_sub spf accum₂)

/-- Result of running the loop of `App::run` over a finite schedule of frames:
`finished` with `cont = none` means the loop exited on quit, `cont = some s`
means the schedule was exhausted with the loop still running in state `s`;
`diverged` means some frame's catch-up loop never terminated. -/
inductive RunOut (S D E : Type) where
  | finished (trace : List (Call S E)) (cont : Option S) (data : D) (accum : Nat) : RunOut S D E
  | diverged (trace : List (Call S E)) : RunOut S D E
deriving DecidableEq

/-- The full dispatch trace of a run. -/
def RunOut.trace : RunOut S D E → List (Call S E)
  | .finished tr _ _ _ => tr
  | .diverged tr => tr

/-- Whether the run exited through the quit path of the loop condition. -/
def RunOut.isQuit : RunOut S D E → Bool
  | .finished _ none _ _ => true
  | _ => false

/-- Embeds the `while let Some(next) = self.handle_events(state)` loop of
`App::run` (app.rs lines 110-125) over a schedule: each frame supplies the
events drained by that iteration and the elapsed time `now - prev` it
observes.  The accumulator starts at `Duration::from_millis(0)`
(app.rs line 105) in `run_loop _ _ sched s d 0`. -/
def run_loop (impl : State S D E) (spf : Nat) :
    List (List E × Nat) → S → D → Nat → RunOut S D E
  | [], s, _d, accum => .finished [] (some s) _d accum
  | (evs, el) :: rest, s, d, accum =>
    match process_frame impl spf evs el s d accum with
    | .quit tr d' => .finished tr none d' accum
    | .diverged tr => .diverged tr
    | .running tr s' d' accum' _ =>
      match run_loop impl spf rest s' d' accum' with
      | .finished tr₂ c d₂ a₂ => .finished (tr ++ tr₂) c d₂ a₂
      | .diverged tr₂ => .diverged (tr ++ tr₂)

/-- The dispatch trace produced by a run. -/
def run_trace (impl : State S D E) (spf : Nat) (sched : List (List E × Nat))
    (s : S) (d : D) (accum : Nat) : List (Call S E) :=
  (run_loop impl spf sched s d accum).trace

/-- Embeds `Duration::from_millis((1000.0 / fps as f64) as u64)` (app.rs line
108), in milliseconds.  For `1 ≤ fps < 2^32` the truncated `f64` quotient
equals natural floor division (see the file header); for `fps = 0` the cast
of `+inf` saturates to `u64::MAX`. -/
def spf_millis (fps : Nat) : Nat :=
  if fps = 0 then 18446744073709551615 else 1000 / fps

/-- Number of tick dispatches recorded in a trace. -/
def count_ticks (l : List (Call S E)) : Nat :=
  l.countP fun c => c.isTick

/-- Sum of the elapsed-time samples of a schedule: the total simulated
wall-clock duration of the run. -/
def total_elapsed (sched : List (List E × Nat)) : Nat :=
  (sched.map Prod.snd).sum

/-- One capability interface generated by the `states!` macro (state.rs lines
46-50): `handle_event` receives the event and the variant's payload and
returns an `Action`; `handle_tick` and `handle_render` receive the payload
and return `()`, modelled as data transformations. -/
structure Capability (S D E P : Type) where
  handle_event : D → E → P → Action S × D
  handle_tick : D → P → D
  handle_render : D → P → D

/-- Models the `match self { $($enum::$name(..) => $trait::handle_event(..))+ }`
generated by `states!` (state.rs lines 54-58): the arm list `caps` names, per
variant in order, the capability implementation declared for it; a value of
the union is a tag (variant index) plus its payload.  The arms are tried
structurally; there is no fallback arm, so a tag beyond the arms reaches
nothing. -/
def dispatch_event_arms (impls : Nat → Capability S D E P) :
    List Nat → Nat → P → D → E → Option (Action S × D)
  | [], _, _, _, _ => none
  | c :: _, 0, p, d, e => some ((impls c).handle_event d e p)
  | _ :: rest, t + 1, p, d, e => dispatch_event_arms impls rest t p d e

/-- Models the generated `handle_tick` match (state.rs lines 60-64). -/
def dispatch_tick_arms (impls : Nat → Capability S D E P) :
    List Nat → Nat → P → D → Option D
  | [], _, _, _ => none
  | c :: _, 0, p, d => some ((impls c).handle_tick d p)
  | _ :: rest, t + 1, p, d => dispatch_tick_arms impls rest t p d

/-- Models the generated `handle_render` match (state.rs lines 66-70). -/
def dispatch_render_arms (impls : Nat → Capability S D E P) :
    List Nat → Nat → P → D → Option D
  | [], _, _, _ => none
  | c :: _, 0, p, d => some ((impls c).handle_render d p)
  | _ :: rest, t + 1, p, d => dispatch_render_arms impls rest t p d

/-- Embeds `error::AppError` (error.rs lines 39-43). -/
inductive AppError (E1 E2 : Type) where
  | WindowError (e : E1) : AppError E1 E2
  | DataError (e : E2) : AppError E1 E2
deriving DecidableEq

/-- Modelled from the spec: the two-stage constructor `App::new` of the
current API is not present under src/ — src/src/app.rs holds an earlier
revision whose data stage is infallible and whose error type predates
`AppError` — while src/src/error.rs declares `AppError` and
test/src/main.rs calls the two-stage constructor.  Following spec §4.1 and
§6: `window_init` fallibly produces the window; only if that succeeds is
`data_init` invoked with the window to fallibly produce the data; a
window-stage failure is returned as `WindowError`, a data-stage failure as
`DataError`, and construction always returns (never aborts). -/
def app_new {W D' E1 E2 : Type} (window_init : Except E1 W)
    (data_init : W → Except E2 D') : Except (AppError E1 E2) (W × D') :=
  match window_init with
  | .error e => .error (.WindowError e)
  | .ok w =>
    match data_init w with
    | .error e => .error (.DataError e)
    | .ok d => .ok (w, d)

/-- Concrete handler over trivial types: every event continues. -/
def unit_state : State Unit Unit Unit :=
  ⟨fun _ d _ => (Action.Continue, d), fun _ d => d, fun _ d => d⟩

/-- Concrete handler whose `handle_event` always transitions to the successor
state. -/
def count_state : State Nat Unit Unit :=
  ⟨fun s d _ => (Action.Done (s + 1), d), fun _ d => d, fun _ d => d⟩

/-- Concrete handler that quits on a `true` event and continues otherwise. -/
def quit_state : State Nat Unit Bool :=
  ⟨fun _ d e => (if e then Action.Quit else Action.Continue, d),
   fun _ d => d, fun _ d => d⟩

/-- Concrete capability family distinguishing its members observably. -/
def test_caps : Nat → Capability Nat Nat Unit Nat :=
  fun c => ⟨fun d _ p => (Action.Done (100 * c + p), d + 1),
            fun d p => 100 * c + 10 * d + p,
            fun d p => 100 * c + 10 * d + p + 1⟩

/-! ## Event drain -/

theorem handle_events_go_length (impl : State S D E) :
    ∀ (es : List E) (s : S) (d : D) (q : Bool),
      (handle_events_go impl es s d q).1.length = es.length := by
  intro es
  induction es with
  | nil => intro s d q; rfl
  | cons e es ih =>
    intro s d q
    simp only [handle_events_go, List.length_cons]
    rw [ih]

theorem handle_events_go_events (impl : State S D E) :
    ∀ (es : List E) (s : S) (d : D) (q : Bool) (c : Call S E),
      c ∈ (handle_events_go impl es s d q).1 → c.isEvent = true := by
  intro es
  induction es with
  | nil => intro s d q c hc; simp [handle_events_go] at hc
  | cons e es ih =>
    intro s d q c hc
    simp only [handle_events_go, List.mem_cons] at hc
    rcases hc with rfl | hc
    · rfl
    · exact ih _ _ _ _ hc

theorem handle_events_go_chained (impl : State S D E) :
    ∀ (es : List E) (s : S) (d : D) (q : Bool),
      chained s (handle_events_go impl es s d q).1 := by
  intro es
  induction es with
  | nil => intro s d q; trivial
  | cons e es ih =>
    intro s d q
    simp only [handle_events_go]
    exact ⟨rfl, ih _ _ _⟩

theorem handle_events_go_last (impl : State S D E) :
    ∀ (es : List E) (s : S) (d : D) (q : Bool),
      last_next s (handle_events_go impl es s d q).1
        = (handle_events_go impl es s d q).2.1 := by
  intro es
  induction es with
  | nil => intro s d q; rfl
  | cons e es ih =>
    intro s d q
    simp only [handle_events_go, last_next, Call.next_state]
    exact ih _ _ _

theorem handle_events_go_quit (impl : State S D E) :
    ∀ (es : List E) (s : S) (d : D) (q : Bool),
      (handle_events_go impl es s d q).2.2.2
        = (q || (handle_events_go impl es s d q).1.any fun c => c.isQuitEvent) := by
  intro es
  induction es with
  | nil => intro s d q; simp [handle_events_go]
  | cons e es ih =>
    intro s d q
    simp only [handle_events_go, List.any_cons]
    rw [ih]
    cases ha : (impl.handle_event s d e).1 with
    | Continue => simp [step_quit, Call.isQuitEvent]
    | Done next => simp [step_quit, Call.isQuitEvent]
    | Quit => simp [step_quit, Call.isQuitEvent]

theorem handle_events_some (impl : State S D E) {es : List E} {s : S} {d : D}
    {etr : List (Call S E)} {s' : S} {d' : D}
    (h : handle_events impl es s d = (etr, some s', d')) :
    (handle_events_go impl es s d false).1 = etr ∧
    (handle_events_go impl es s d false).2.1 = s' ∧
    (handle_events_go impl es s d false).2.2.1 = d' ∧
    (handle_events_go impl es s d false).2.2.2 = false := by
  simp only [handle_events] at h
  split at h
  · simp at h
  · next hq =>
    simp only [Prod.mk.injEq, Option.some.injEq] at h
    exact ⟨h.1, h.2.1, h.2.2, by simpa using hq⟩

theorem handle_events_none (impl : State S D E) {es : List E} {s : S} {d : D}
    {etr : List (Call S E)} {d' : D}
    (h : handle_events impl es s d = (etr, none, d')) :
    (handle_events_go impl es s d false).1 = etr ∧
    (handle_events_go impl es s d false).2.2.1 = d' ∧
    (handle_events_go impl es s d false).2.2.2 = true := by
  simp only [handle_events] at h
  split at h
  · next hq =>
    simp only [Prod.mk.injEq] at h
    exact ⟨h.1, h.2.2, hq⟩
  · simp at h

/-! ## Trace predicates -/

theorem chained_append :
    ∀ (l₁ : List (Call S E)) (s : S) (l₂ : List (Call S E)),
      chained s l₁ → chained (last_next s l₁) l₂ → chained s (l₁ ++ l₂) := by
  intro l₁
  induction l₁ with
  | nil => intro s l₂ _ h₂; exact h₂
  | cons c l₁ ih =>
    intro s l₂ h₁ h₂
    obtain ⟨hs, hrest⟩ := h₁
    exact ⟨hs, ih _ _ hrest h₂⟩

theorem last_next_append :
    ∀ (l₁ : List (Call S E)) (s : S) (l₂ : List (Call S E)),
      last_next s (l₁ ++ l₂) = last_next (last_next s l₁) l₂ := by
  intro l₁
  induction l₁ with
  | nil => intro s l₂; rfl
  | cons c l₁ ih => intro s l₂; exact ih _ _

theorem chained_mid :
    ∀ (t₁ : List (Call S E)) (s : S) (c₀ c : Call S E) (t₂ : List (Call S E)),
      chained s (t₁ ++ c₀ :: c :: t₂) → c.stateOf = c₀.next_state := by
  intro t₁
  induction t₁ with
  | nil => intro s c₀ c t₂ h; exact h.2.1
  | cons x t₁ ih => intro s c₀ c t₂ h; exact ih _ _ _ _ h.2

theorem chained_all_tick (s : S) :
    ∀ (l : List (Call S E)), (∀ c ∈ l, c = Call.tick s) → chained s l := by
  intro l
  induction l with
  | nil => intro _; trivial
  | cons c l ih =>
    intro h
    have hc := h c (List.mem_cons_self c l)
    subst hc
    exact ⟨rfl, ih fun c' hc' => h c' (List.mem_cons_of_mem _ hc')⟩

theorem last_next_all_tick (s : S) :
    ∀ (l : List (Call S E)), (∀ c ∈ l, c = Call.tick s) → last_next s l = s := by
  intro l
  induction l with
  | nil => intro _; rfl
  | cons c l ih =>
    intro h
    have hc := h c (List.mem_cons_self c l)
    subst hc
    exact ih fun c' hc' => h c' (List.mem_cons_of_mem _ hc')

theorem quit_tail_of_no_quit :
    ∀ (l : List (Call S E)), (∀ c ∈ l, c.isQuitEvent = false) → quit_tail l := by
  intro l
  induction l with
  | nil => intro _; trivial
  | cons c l ih =>
    intro h
    refine ⟨fun hq => ?_, ih fun c' hc' => h c' (List.mem_cons_of_mem _ hc')⟩
    rw [h c (List.mem_cons_self c l)] at hq
    exact absurd hq (by simp)

theorem quit_tail_of_all_events :
    ∀ (l : List (Call S E)), (∀ c ∈ l, c.isEvent = true) → quit_tail l := by
  intro l
  induction l with
  | nil => intro _; trivial
  | cons c l ih =>
    intro h
    exact ⟨fun _ c' hc' => h c' (List.mem_cons_of_mem _ hc'),
      ih fun c' hc' => h c' (List.mem_cons_of_mem _ hc')⟩

theorem quit_tail_append :
    ∀ (l₁ l₂ : List (Call S E)), quit_tail l₁ → quit_tail l₂ →
      ((∃ c ∈ l₁, c.isQuitEvent = true) → ∀ c ∈ l₂, c.isEvent = true) →
      quit_tail (l₁ ++ l₂) := by
  intro l₁
  induction l₁ with
  | nil => intro l₂ _ h₂ _; exact h₂
  | cons c l₁ ih =>
    intro l₂ h₁ h₂ himp
    obtain ⟨hc, hrest⟩ := h₁
    refine ⟨?_, ih l₂ hrest h₂ ?_⟩
    · intro hq c' hc'
      rcases List.mem_append.mp hc' with h | h
      · exact hc hq c' h
      · exact himp ⟨c, List.mem_cons_self c l₁, hq⟩ c' h
    · intro hex
      obtain ⟨c₀, hc₀, hq₀⟩ := hex
      exact himp ⟨c₀, List.mem_cons_of_mem _ hc₀, hq₀⟩

theorem quit_tail_mid :
    ∀ (t₁ : List (Call S E)) (c₀ : Call S E) (t₂ : List (Call S E)),
      quit_tail (t₁ ++ c₀ :: t₂) → c₀.isQuitEvent = true →
      ∀ c ∈ t₂, c.isEvent = true := by
  intro t₁
  induction t₁ with
  | nil => intro c₀ t₂ h hq; exact h.1 hq
  | cons x t₁ ih => intro c₀ t₂ h hq; exact ih _ _ h.2 hq

theorem isEvent_not_tick_render (c : Call S E) (h : c.isEvent = true) :
    c.isTick = false ∧ c.isRender = false := by
  cases c with
  | event s e a => exact ⟨rfl, rfl⟩
  | render s => simp [Call.isEvent] at h
  | tick s => simp [Call.isEvent] at h

/-! ## Catch-up loop -/

theorem catch_up_pos (impl : State S D E) (spf : Nat) (s : S) (hspf : 0 < spf) :
    ∀ (fuel a : Nat) (d : D), a / spf < fuel →
      catch_up impl spf s fuel a d =
        some (List.replicate (a / spf) (Call.tick s), a % spf,
          (impl.handle_tick s)^[a / spf] d) := by
  intro fuel
  induction fuel with
  | zero => intro a d h; exact absurd h (Nat.not_lt_zero _)
  | succ fuel ih =>
    intro a d h
    by_cases hle : spf ≤ a
    · have h1 : a / spf = (a - spf) / spf + 1 := Nat.div_eq_sub_div hspf hle
      have h2 : a % spf = (a - spf) % spf := Nat.mod_eq_sub_mod hle
      have h3 : (a - spf) / spf < fuel := by omega
      have ihx := ih (a - spf) (impl.handle_tick s d) h3
      rw [h1, h2]
      simp only [catch_up, if_pos hle, ihx, List.replicate_succ,
        Function.iterate_succ_apply]
    · have h0 : a / spf = 0 := Nat.div_eq_of_lt (Nat.lt_of_not_le hle)
      have h0' : a % spf = a := Nat.mod_eq_of_lt (Nat.lt_of_not_le hle)
      simp only [catch_up, if_neg hle, h0, h0', List.replicate,
        Function.iterate_zero_apply]

theorem catch_up_lt (impl : State S D E) (spf : Nat) (s : S) :
    ∀ (fuel a : Nat) (d : D) (tr : List (Call S E)) (a' : Nat) (d' : D),
      catch_up impl spf s fuel a d = some (tr, a', d') → a' < spf := by
  intro fuel
  induction fuel with
  | zero => intro a d tr a' d' h; simp [catch_up] at h
  | succ fuel ih =>
    intro a d tr a' d' h
    by_cases hle : spf ≤ a
    · simp only [catch_up, if_pos hle] at h
      cases hr : catch_up impl spf s fuel (a - spf) (impl.handle_tick s d) with
      | none => rw [hr] at h; simp at h
      | some v =>
        obtain ⟨tr₀, a₀, d₀⟩ := v
        rw [hr] at h
        simp only [Option.some.injEq, Prod.mk.injEq] at h
        obtain ⟨-, h2, -⟩ := h
        exact h2 ▸ ih _ _ _ _ _ hr
    · simp only [catch_up, if_neg hle, Option.some.injEq, Prod.mk.injEq] at h
      obtain ⟨-, h2, -⟩ := h
      exact h2 ▸ Nat.lt_of_not_le hle

theorem catch_up_zero (impl : State S D E) (s : S) (fuel a : Nat) (d : D) :
    catch_up impl 0 s fuel a d = none := by
  cases h : catch_up impl 0 s fuel a d with
  | none => rfl
  | some v =>
    obtain ⟨tr, a', d'⟩ := v
    exact absurd (catch_up_lt impl 0 s fuel a d tr a' d' h) (Nat.not_lt_zero _)

/-- C1: for every accumulator value `a` and fixed frame budget `0 < spf`, the
catch-up phase invokes `handle_tick` exactly `⌊a / spf⌋` times (never a
fractional tick) and leaves the accumulator at `a % spf`, which lies in
`[0, spf)`; in particular with elapsed time `3.5 * spf` (witnessed as
`spf = 2 * k`, accumulator `7 * k`) exactly 3 ticks occur, the accumulator is
left at `0.5 * spf = k`, and the following sleep duration is
`spf - 0.5 * spf`. -/
theorem claim1_catch_up_exact (impl : State S D E) (s : S) (d : D) (spf a : Nat)
    (hspf : 0 < spf) :
    catch_up impl spf s (a + 1) a d =
      some (List.replicate (a / spf) (Call.tick s), a % spf,
        (impl.handle_tick s)^[a / spf] d) ∧
    a % spf < spf ∧
    (∀ k : Nat, 0 < k →
      catch_up impl (2 * k) s (7 * k + 1) (7 * k) d =
        some (List.replicate 3 (Call.tick s), k, (impl.handle_tick s)^[3] d) ∧
      duration_sub (2 * k) k = some (2 * k - k)) := by
  refine ⟨catch_up_pos impl spf s hspf (a + 1) a d
      (Nat.lt_succ_of_le (Nat.div_le_self a spf)),
    Nat.mod_lt a hspf, ?_⟩
  intro k hk
  have hsplit : 7 * k = 2 * k * 3 + k := by ring
  have hdiv : 7 * k / (2 * k) = 3 := by
    rw [hsplit, Nat.mul_add_div (by omega), Nat.div_eq_of_lt (by omega)]
  have hmod : 7 * k % (2 * k) = k := by
    rw [hsplit, Nat.mul_add_mod]
    exact Nat.mod_eq_of_lt (by omega)
  constructor
  · have hc := catch_up_pos impl (2 * k) s (by omega) (7 * k + 1) (7 * k) d
      (by rw [hdiv]; omega)
    rw [hdiv, hmod] at hc
    exact hc
  · simp only [duration_sub, if_pos (by omega : k ≤ 2 * k)]

theorem catch_up_mem (impl : State S D E) (spf : Nat) (s : S) :
    ∀ (fuel a : Nat) (d : D) (tr : List (Call S E)) (a' : Nat) (d' : D),
      catch_up impl spf s fuel a d = some (tr, a', d') →
      ∀ c ∈ tr, c = Call.tick s := by
  intro fuel
  induction fuel with
  | zero => intro a d tr a' d' h; simp [catch_up] at h
  | succ fuel ih =>
    intro a d tr a' d' h
    by_cases hle : spf ≤ a
    · simp only [catch_up, if_pos hle] at h
      cases hr : catch_up impl spf s fuel (a - spf) (impl.handle_tick s d) with
      | none => rw [hr] at h; simp at h
      | some v =>
        obtain ⟨tr₀, a₀, d₀⟩ := v
        rw [hr] at h
        simp only [Option.some.injEq, Prod.mk.injEq] at h
        obtain ⟨h1, -, -⟩ := h
        subst h1
        intro c hc
        rcases List.mem_cons.mp hc with rfl | hc
        · rfl
        · exact ih _ _ _ _ _ hr c hc
    · simp only [catch_up, if_neg hle, Option.some.injEq, Prod.mk.injEq] at h
      obtain ⟨h1, -, -⟩ := h
      subst h1
      intro c hc
      simp at hc

/-! ## Frame and run lemmas -/

theorem handle_events_some_no_quit (impl : State S D E) {es : List E} {s : S}
    {d : D} {etr : List (Call S E)} {s' : S} {d' : D}
    (hev : handle_events impl es s d = (etr, some s', d')) :
    ∀ c ∈ etr, c.isQuitEvent = false := by
  obtain ⟨h1, -, -, h4⟩ := handle_events_some impl hev
  rw [handle_events_go_quit, Bool.false_or] at h4
  intro c hc
  rw [← h1] at hc
  have := List.any_eq_false.mp h4 c hc
  simpa using this

theorem frame_trace_no_quit (impl : State S D E) {es : List E} {s : S}
    {d : D} {etr : List (Call S E)} {s' : S} {d' : D}
    (hev : handle_events impl es s d = (etr, some s', d'))
    (ticks : List (Call S E)) (hticks : ∀ c ∈ ticks, c = Call.tick s') :
    ∀ c ∈ etr ++ Call.render s' :: ticks, c.isQuitEvent = false := by
  intro c hc
  rcases List.mem_append.mp hc with h | h
  · exact handle_events_some_no_quit impl hev c h
  · rcases List.mem_cons.mp h with rfl | h
    · rfl
    · rw [hticks c h]; rfl

theorem frame_trace_chained (impl : State S D E) {es : List E} {s : S} {d : D}
    {etr : List (Call S E)} {s' : S} {d' : D}
    (hev : handle_events impl es s d = (etr, some s', d'))
    (ticks : List (Call S E)) (hticks : ∀ c ∈ ticks, c = Call.tick s') :
    chained s (etr ++ Call.render s' :: ticks) ∧
    last_next s (etr ++ Call.render s' :: ticks) = s' := by
  obtain ⟨h1, h2, -, -⟩ := handle_events_some impl hev
  have hl : last_next s etr = s' := by
    rw [← h1, handle_events_go_last]
    exact h2
  constructor
  · refine chained_append _ _ _ ?_ ?_
    · rw [← h1]; exact handle_events_go_chained impl es s d false
    · rw [hl]
      exact ⟨rfl, chained_all_tick _ _ hticks⟩
  · rw [last_next_append, hl]
    show last_next s' ticks = s'
    exact last_next_all_tick _ _ hticks

theorem process_frame_quit_eq (impl : State S D E) (spf : Nat) (evs : List E)
    (el : Nat) (s : S) (d : D) (a : Nat) {etr : List (Call S E)} {d' : D}
    (hev : handle_events impl evs s d = (etr, none, d')) :
    process_frame impl spf evs el s d a = .quit etr d' := by
  simp only [process_frame, hev]

theorem process_frame_running_eq (impl : State S D E) (spf : Nat) (hspf : 0 < spf)
    (evs : List E) (el : Nat) (s : S) (d : D) (a : Nat)
    {etr : List (Call S E)} {s' : S} {d' : D}
    (hev : handle_events impl evs s d = (etr, some s', d')) :
    process_frame impl spf evs el s d a =
      .running (etr ++ Call.render s' :: List.replicate ((a + el) / spf) (Call.tick s'))
        s' ((impl.handle_tick s')^[(a + el) / spf] (impl.handle_render s' d'))
        ((a + el) % spf) (duration_sub spf ((a + el) % spf)) := by
  have hcu := catch_up_pos impl spf s' hspf (a + el + 1) (a + el)
    (impl.handle_render s' d') (Nat.lt_succ_of_le (Nat.div_le_self _ _))
  simp only [process_frame, hev, hcu]

theorem process_frame_zero_spf (impl : State S D E) (evs : List E)
    (el : Nat) (s : S) (d : D) (a : Nat)
    {etr : List (Call S E)} {s' : S} {d' : D}
    (hev : handle_events impl evs s d = (etr, some s', d')) :
    process_frame impl 0 evs el s d a = .diverged (etr ++ [Call.render s']) := by
  simp only [process_frame, hev, catch_up_zero]

theorem run_chained (impl : State S D E) (spf : Nat) :
    ∀ (sched : List (List E × Nat)) (s : S) (d : D) (accum : Nat),
      chained s (run_trace impl spf sched s d accum) := by
  intro sched
  induction sched with
  | nil => intro s d accum; trivial
  | cons f rest ih =>
    obtain ⟨evs, el⟩ := f
    intro s d accum
    rcases hev : handle_events impl evs s d with ⟨etr, os, d₀⟩
    cases os with
    | none =>
      have hpf := process_frame_quit_eq impl spf evs el s d accum hev
      simp only [run_trace, run_loop, hpf, RunOut.trace]
      obtain ⟨h1, -, -⟩ := handle_events_none impl hev
      rw [← h1]
      exact handle_events_go_chained impl evs s d false
    | some s₀ =>
      cases hcu : catch_up impl spf s₀ (accum + el + 1) (accum + el)
          (impl.handle_render s₀ d₀) with
      | none =>
        simp only [run_trace, run_loop, process_frame, hev, hcu, RunOut.trace]
        exact (frame_trace_chained impl hev [] (by intro c hc; simp at hc)).1
      | some v =>
        obtain ⟨ttr, a₂, d₃⟩ := v
        have hticks : ∀ c ∈ ttr, c = Call.tick s₀ :=
          catch_up_mem impl spf s₀ _ _ _ _ _ _ hcu
        obtain ⟨hch, hln⟩ := frame_trace_chained impl hev ttr hticks
        simp only [run_trace, run_loop, process_frame, hev, hcu]
        cases hr : run_loop impl spf rest s₀ d₃ a₂ with
        | finished tr₂ c d₂ acc₂ =>
          simp only [RunOut.trace]
          refine chained_append _ _ _ hch ?_
          rw [hln]
          have hx := ih s₀ d₃ a₂
          simp only [run_trace, hr, RunOut.trace] at hx
          exact hx
        | diverged tr₂ =>
          simp only [RunOut.trace]
          refine chained_append _ _ _ hch ?_
          rw [hln]
          have hx := ih s₀ d₃ a₂
          simp only [run_trace, hr, RunOut.trace] at hx
          exact hx

theorem run_quit_tail (impl : State S D E) (spf : Nat) :
    ∀ (sched : List (List E × Nat)) (s : S) (d : D) (accum : Nat),
      quit_tail (run_trace impl spf sched s d accum) := by
  intro sched
  induction sched with
  | nil => intro s d accum; trivial
  | cons f rest ih =>
    obtain ⟨evs, el⟩ := f
    intro s d accum
    rcases hev : handle_events impl evs s d with ⟨etr, os, d₀⟩
    cases os with
    | none =>
      have hpf := process_frame_quit_eq impl spf evs el s d accum hev
      simp only [run_trace, run_loop, hpf, RunOut.trace]
      obtain ⟨h1, -, -⟩ := handle_events_none impl hev
      refine quit_tail_of_all_events _ ?_
      rw [← h1]
      exact handle_events_go_events impl evs s d false
    | some s₀ =>
      cases hcu : catch_up impl spf s₀ (accum + el + 1) (accum + el)
          (impl.handle_render s₀ d₀) with
      | none =>
        simp only [run_trace, run_loop, process_frame, hev, hcu, RunOut.trace]
        exact quit_tail_of_no_quit _
          (frame_trace_no_quit impl hev [] (by intro c hc; simp at hc))
      | some v =>
        obtain ⟨ttr, a₂, d₃⟩ := v
        have hticks : ∀ c ∈ ttr, c = Call.tick s₀ :=
          catch_up_mem impl spf s₀ _ _ _ _ _ _ hcu
        have hnq := frame_trace_no_quit impl hev ttr hticks
        simp only [run_trace, run_loop, process_frame, hev, hcu]
        cases hr : run_loop impl spf rest s₀ d₃ a₂ with
        | finished tr₂ c d₂ acc₂ =>
          simp only [RunOut.trace]
          refine quit_tail_append _ _ (quit_tail_of_no_quit _ hnq) ?_ ?_
          · have hx := ih s₀ d₃ a₂
            simp only [run_trace, hr, RunOut.trace] at hx
            exact hx
          · intro hex
            obtain ⟨c₀, hc₀, hq₀⟩ := hex
            rw [hnq c₀ hc₀] at hq₀
            exact absurd hq₀ (by simp)
        | diverged tr₂ =>
          simp only [RunOut.trace]
          refine quit_tail_append _ _ (quit_tail_of_no_quit _ hnq) ?_ ?_
          · have hx := ih s₀ d₃ a₂
            simp only [run_trace, hr, RunOut.trace] at hx
            exact hx
          · intro hex
            obtain ⟨c₀, hc₀, hq₀⟩ := hex
            rw [hnq c₀ hc₀] at hq₀
            exact absurd hq₀ (by simp)

theorem run_quit_of_mem (impl : State S D E) (spf : Nat) :
    ∀ (sched : List (List E × Nat)) (s : S) (d : D) (accum : Nat),
      (∃ c ∈ run_trace impl spf sched s d accum, c.isQuitEvent = true) →
      (run_loop impl spf sched s d accum).isQuit = true := by
  intro sched
  induction sched with
  | nil =>
    intro s d accum hex
    obtain ⟨c, hc, -⟩ := hex
    simp [run_trace, run_loop, RunOut.trace] at hc
  | cons f rest ih =>
    obtain ⟨evs, el⟩ := f
    intro s d accum hex
    rcases hev : handle_events impl evs s d with ⟨etr, os, d₀⟩
    cases os with
    | none =>
      have hpf := process_frame_quit_eq impl spf evs el s d accum hev
      simp only [run_loop, hpf, RunOut.isQuit]
    | some s₀ =>
      cases hcu : catch_up impl spf s₀ (accum + el + 1) (accum + el)
          (impl.handle_render s₀ d₀) with
      | none =>
        obtain ⟨c, hc, hq⟩ := hex
        simp only [run_trace, run_loop, process_frame, hev, hcu, RunOut.trace] at hc
        rw [frame_trace_no_quit impl hev [] (by intro c' hc'; simp at hc') c hc] at hq
        exact absurd hq (by simp)
      | some v =>
        obtain ⟨ttr, a₂, d₃⟩ := v
        have hticks : ∀ c ∈ ttr, c = Call.tick s₀ :=
          catch_up_mem impl spf s₀ _ _ _ _ _ _ hcu
        have hnq := frame_trace_no_quit impl hev ttr hticks
        obtain ⟨c, hc, hq⟩ := hex
        simp only [run_trace, run_loop, process_frame, hev, hcu] at hc ⊢
        cases hr : run_loop impl spf rest s₀ d₃ a₂ with
        | finished tr₂ cont d₂ acc₂ =>
          rw [hr] at hc
          simp only [RunOut.trace] at hc
          rcases List.mem_append.mp hc with h | h
          · rw [hnq c h] at hq
            exact absurd hq (by simp)
          · have hx := ih s₀ d₃ a₂ ⟨c, by
              simp only [run_trace, hr, RunOut.trace]
              exact h, hq⟩
            rw [hr] at hx
            cases cont with
            | none => rfl
            | some s₁ => simp [RunOut.isQuit] at hx
        | diverged tr₂ =>
          rw [hr] at hc
          simp only [RunOut.trace] at hc
          rcases List.mem_append.mp hc with h | h
          · rw [hnq c h] at hq
            exact absurd hq (by simp)
          · have hx := ih s₀ d₃ a₂ ⟨c, by
              simp only [run_trace, hr, RunOut.trace]
              exact h, hq⟩
            rw [hr] at hx
            simp [RunOut.isQuit] at hx

/-- Witness for C1 at `spf = 2`, `a = 7`. -/
theorem claim1_witness :
    0 < 2 ∧
    catch_up unit_state 2 () (7 + 1) 7 () =
      some (List.replicate (7 / 2) (Call.tick ()), 7 % 2,
        (unit_state.handle_tick ())^[7 / 2] ()) :=
  ⟨by decide, (claim1_catch_up_exact unit_state () () 2 7 (by decide)).1⟩

/-! ## Tick counting -/

theorem count_ticks_append (l₁ l₂ : List (Call S E)) :
    count_ticks (l₁ ++ l₂) = count_ticks l₁ + count_ticks l₂ := by
  simp [count_ticks, List.countP_append]

theorem count_ticks_events (l : List (Call S E)) (h : ∀ c ∈ l, c.isEvent = true) :
    count_ticks l = 0 := by
  simp only [count_ticks, List.countP_eq_zero]
  intro c hc
  have := h c hc
  cases c <;> simp_all [Call.isEvent, Call.isTick]

theorem count_ticks_tick_cons (s : S) (l : List (Call S E)) :
    count_ticks (Call.tick s :: l) = count_ticks l + 1 := by
  simp only [count_ticks, List.countP_cons]
  rfl

theorem count_ticks_render_cons (s : S) (l : List (Call S E)) :
    count_ticks (Call.render s :: l) = count_ticks l := by
  simp only [count_ticks, List.countP_cons]
  rfl

theorem count_ticks_replicate (s : S) (n : Nat) :
    count_ticks (E := E) (List.replicate n (Call.tick s)) = n := by
  induction n with
  | zero => rfl
  | succ n ih =>
    rw [List.replicate_succ, count_ticks_tick_cons, ih]

theorem count_ticks_frame (etr : List (Call S E)) (s' : S) (n : Nat)
    (h : ∀ c ∈ etr, c.isEvent = true) :
    count_ticks (etr ++ Call.render s' :: List.replicate n (Call.tick s')) = n := by
  rw [count_ticks_append, count_ticks_events etr h, Nat.zero_add,
    count_ticks_render_cons, count_ticks_replicate]

theorem total_elapsed_cons (evs : List E) (el : Nat) (rest : List (List E × Nat)) :
    total_elapsed ((evs, el) :: rest) = el + total_elapsed rest := by
  simp [total_elapsed]

theorem add_div_aux (n x y : Nat) (h : 0 < n) :
    (x + y) / n = x / n + (x % n + y) / n := by
  conv_lhs => rw [← Nat.div_add_mod x n]
  rw [Nat.add_assoc, Nat.mul_add_div h]

theorem run_loop_ticks (impl : State S D E) (spf : Nat) (hspf : 0 < spf) :
    ∀ (sched : List (List E × Nat)) (s : S) (d : D) (a : Nat), a < spf →
      ∀ (tr : List (Call S E)) (s' : S) (d' : D) (a' : Nat),
        run_loop impl spf sched s d a = RunOut.finished tr (some s') d' a' →
        count_ticks tr = (a + total_elapsed sched) / spf ∧
        a' = (a + total_elapsed sched) % spf := by
  intro sched
  induction sched with
  | nil =>
    intro s d a ha tr s' d' a' h
    simp only [run_loop, RunOut.finished.injEq] at h
    obtain ⟨h1, -, -, h4⟩ := h
    subst h1
    subst h4
    constructor
    · simp [count_ticks, total_elapsed, Nat.div_eq_of_lt ha]
    · simp [total_elapsed, Nat.mod_eq_of_lt ha]
  | cons f rest ih =>
    obtain ⟨evs, el⟩ := f
    intro s d a ha tr s' d' a' h
    rcases hev : handle_events impl evs s d with ⟨etr, os, d₀⟩
    cases os with
    | none =>
      have hpf := process_frame_quit_eq impl spf evs el s d a hev
      simp only [run_loop, hpf, RunOut.finished.injEq] at h
      exact absurd h.2.1 (by simp)
    | some s₀ =>
      have hevs : ∀ c ∈ etr, c.isEvent = true := by
        obtain ⟨h1, -, -, -⟩ := handle_events_some impl hev
        intro c hc
        rw [← h1] at hc
        exact handle_events_go_events impl evs s d false c hc
      have hpf := process_frame_running_eq impl spf hspf evs el s d a hev
      simp only [run_loop, hpf] at h
      cases hr : run_loop impl spf rest s₀
          ((impl.handle_tick s₀)^[(a + el) / spf] (impl.handle_render s₀ d₀))
          ((a + el) % spf) with
      | finished tr₂ c d₂ acc₂ =>
        rw [hr] at h
        simp only [RunOut.finished.injEq] at h
        obtain ⟨htr, hc, -, hacc⟩ := h
        cases c with
        | none => simp at hc
        | some s₁ =>
          have hrem : (a + el) % spf < spf := Nat.mod_lt _ hspf
          obtain ⟨ht, hacc₂⟩ := ih s₀ _ ((a + el) % spf) hrem tr₂ s₁ d₂ acc₂ hr
          subst htr
          subst hacc
          constructor
          · rw [count_ticks_append, count_ticks_frame etr s₀ _ hevs, ht,
              total_elapsed_cons, ← Nat.add_assoc,
              ← add_div_aux spf (a + el) (total_elapsed rest) hspf]
          · rw [hacc₂, total_elapsed_cons, ← Nat.add_assoc, Nat.mod_add_mod]
      | diverged tr₂ =>
        rw [hr] at h
        simp at h

/-- C5 (amended): for `0 < spf` and every run that is still running after its
schedule (no quit), the total number of tick invocations `N` equals
`⌊T / spf⌋` where `T` is the total elapsed wall-clock duration, and the final
accumulator is `T % spf`; hence `N * spf ≤ T < N * spf + spf`, i.e. the
drift of the simulated time `N * spf` behind `T` is bounded by one frame
budget.  The originally claimed bound `|N - T * F| ≤ 1` holds only when the
frame budget equals `1 / F` exactly; it fails whenever `1000 / F` truncates
(see the counterexample). -/
theorem claim5_tick_count_amended (impl : State S D E) (spf : Nat)
    (sched : List (List E × Nat)) (s : S) (d : D) (hspf : 0 < spf)
    (tr : List (Call S E)) (s' : S) (d' : D) (a' : Nat)
    (h : run_loop impl spf sched s d 0 = RunOut.finished tr (some s') d' a') :
    count_ticks tr = total_elapsed sched / spf ∧
    a' = total_elapsed sched % spf ∧
    count_ticks tr * spf ≤ total_elapsed sched ∧
    total_elapsed sched - count_ticks tr * spf < spf := by
  obtain ⟨h1, h2⟩ := run_loop_ticks impl spf hspf sched s d 0 hspf tr s' d' a' h
  rw [Nat.zero_add] at h1 h2
  have hdm := Nat.div_add_mod (total_elapsed sched) spf
  have hml : total_elapsed sched % spf < spf := Nat.mod_lt _ hspf
  refine ⟨h1, h2, ?_, ?_⟩
  · rw [h1, Nat.mul_comm]
    omega
  · rw [h1, Nat.mul_comm]
    omega

/-- Witness for the amended C5 on a concrete run: `spf = 16`, one frame of
elapsed `35`, two ticks, accumulator `3`. -/
theorem claim5_witness :
    run_loop unit_state 16 [([], 35)] () () 0 =
      RunOut.finished [Call.render (), Call.tick (), Call.tick ()] (some ()) () 3 ∧
    (count_ticks ([Call.render (), Call.tick (), Call.tick ()] : List (Call Unit Unit)) =
        total_elapsed ([([], 35)] : List (List Unit × Nat)) / 16 ∧
      3 = total_elapsed ([([], 35)] : List (List Unit × Nat)) % 16 ∧
      count_ticks ([Call.render (), Call.tick (), Call.tick ()] : List (Call Unit Unit)) * 16 ≤
        total_elapsed ([([], 35)] : List (List Unit × Nat)) ∧
      total_elapsed ([([], 35)] : List (List Unit × Nat)) -
        count_ticks ([Call.render (), Call.tick (), Call.tick ()] : List (Call Unit Unit)) * 16 < 16) :=
  ⟨by decide, claim5_tick_count_amended unit_state 16 [([], 35)] () () (by decide)
    [Call.render (), Call.tick (), Call.tick ()] () () 3 (by decide)⟩

/-- C5 is false as stated: with `target_fps = 60` the frame budget is
`spf_millis 60 = 16` milliseconds, and a run of total wall-clock duration
`T = 1000` ms — one second, so the claimed count is `T * F = 60` ticks up to
`±1` — performs `62` tick invocations, and `|62 - 60| = 2 > 1`. -/
theorem claim5_counterexample :
    spf_millis 60 = 16 ∧
    count_ticks (run_trace unit_state (spf_millis 60) [([], 1000)] () () 0) = 62 ∧
    ¬ ((62 - 60 : Int).natAbs ≤ 1) :=
  ⟨by decide, by decide, by decide⟩

/-- C2: whenever `handle_event` returns `Done next` during a drain, the
scheduler's state value is replaced with `next` before the next queued event
is dispatched, so the next dispatch in program order — a later event of the
same drain, or the frame's render or tick call — operates on `next` and
never on the prior state value. -/
theorem claim2_state_continuity (impl : State S D E) (spf : Nat)
    (sched : List (List E × Nat)) (s : S) (d : D) (accum : Nat)
    (t₁ : List (Call S E)) (s₀ : S) (e : E) (next : S) (c : Call S E)
    (t₂ : List (Call S E))
    (h : run_trace impl spf sched s d accum =
      t₁ ++ Call.event s₀ e (Action.Done next) :: c :: t₂) :
    c.stateOf = next := by
  have hch := run_chained impl spf sched s d accum
  rw [h] at hch
  exact chained_mid t₁ s (Call.event s₀ e (Action.Done next)) c t₂ hch

/-- Witness for C2 on a concrete run: the event handler transitions `0 ↦ 1`
and the following render call observes `1`. -/
theorem claim2_witness :
    run_trace count_state 16 [([()], 40)] 0 () 0 =
      [] ++ Call.event 0 () (Action.Done 1) :: Call.render 1 ::
        [Call.tick 1, Call.tick 1] ∧
    (Call.render 1 : Call Nat Unit).stateOf = 1 :=
  ⟨by decide, claim2_state_continuity count_state 16 [([()], 40)] 0 () 0 []
    0 () 1 (Call.render 1) [Call.tick 1, Call.tick 1] (by decide)⟩

/-- C3: once any `handle_event` returns `Quit`, no `handle_tick` and no
`handle_render` call occurs at any later point of the run trace — the
iteration that observed `Quit` performs neither its render phase nor its
catch-up phase, and no later iteration runs — and the loop exits through the
quit path. -/
theorem claim3_quit_immediacy (impl : State S D E) (spf : Nat)
    (sched : List (List E × Nat)) (s : S) (d : D) (accum : Nat)
    (t₁ : List (Call S E)) (s₀ : S) (e : E) (t₂ : List (Call S E))
    (h : run_trace impl spf sched s d accum =
      t₁ ++ Call.event s₀ e Action.Quit :: t₂) :
    (∀ c ∈ t₂, c.isTick = false ∧ c.isRender = false) ∧
    (run_loop impl spf sched s d accum).isQuit = true := by
  constructor
  · have hqt := run_quit_tail impl spf sched s d accum
    rw [h] at hqt
    intro c hc
    exact isEvent_not_tick_render c
      (quit_tail_mid t₁ (Call.event s₀ e Action.Quit) t₂ hqt rfl c hc)
  · refine run_quit_of_mem impl spf sched s d accum
      ⟨Call.event s₀ e Action.Quit, ?_, rfl⟩
    rw [h]
    exact List.mem_append.mpr (Or.inr (List.mem_cons_self _ _))

/-- Witness for C3 on a concrete run: the first event quits, the second event
of the same drain is still delivered, and the run exits on quit. -/
theorem claim3_witness :
    run_trace quit_state 16 [([true, false], 5)] 0 () 0 =
      [] ++ Call.event 0 true Action.Quit :: [Call.event 0 false Action.Continue] ∧
    (run_loop quit_state 16 [([true, false], 5)] 0 () 0).isQuit = true :=
  ⟨by decide, (claim3_quit_immediacy quit_state 16 [([true, false], 5)] 0 () 0 []
    0 true [Call.event 0 false Action.Continue] (by decide)).2⟩

/-- C6: on every loop iteration that remains running, the end-of-frame sleep
duration equals `spf` minus the accumulator remainder left by the catch-up
phase; the remainder is strictly below `spf`, so the `Duration` subtraction
`spf - accum` (app.rs line 124) never underflows and never aborts, and the
result is a non-negative duration.  The clamp-to-zero clause of the claim is
vacuous: the catch-up loop never leaves a remainder of `spf` or more. -/
theorem claim6_sleep_no_underflow (impl : State S D E) (spf : Nat) (evs : List E)
    (el : Nat) (s : S) (d : D) (accum : Nat) (tr : List (Call S E)) (s' : S)
    (d' : D) (a' : Nat) (slp : Option Nat)
    (h : process_frame impl spf evs el s d accum
      = FrameResult.running tr s' d' a' slp) :
    a' < spf ∧ slp = some (spf - a') ∧ duration_sub spf a' = some (spf - a') := by
  rcases hev : handle_events impl evs s d with ⟨etr, os, d₀⟩
  cases os with
  | none =>
    rw [process_frame_quit_eq impl spf evs el s d accum hev] at h
    cases h
  | some s₀ =>
    simp only [process_frame, hev] at h
    cases hcu : catch_up impl spf s₀ (accum + el + 1) (accum + el)
        (impl.handle_render s₀ d₀) with
    | none => rw [hcu] at h; cases h
    | some v =>
      obtain ⟨ttr, a₂, d₃⟩ := v
      rw [hcu] at h
      simp only [FrameResult.running.injEq] at h
      obtain ⟨-, -, -, ha, hs⟩ := h
      have hlt : a₂ < spf := catch_up_lt impl spf s₀ _ _ _ _ _ _ hcu
      subst ha
      subst hs
      exact ⟨hlt, by simp [duration_sub, Nat.le_of_lt hlt],
        by simp [duration_sub, Nat.le_of_lt hlt]⟩

/-- Witness for C6 on a concrete frame: `spf = 16`, elapsed `35`, remainder
`3`, sleep `some 13`. -/
theorem claim6_witness :
    process_frame unit_state 16 [] 35 () () 0 =
      FrameResult.running [Call.render (), Call.tick (), Call.tick ()] () () 3
        (some 13) ∧
    3 < 16 ∧ (some 13 : Option Nat) = some (16 - 3) ∧
    duration_sub 16 3 = some (16 - 3) :=
  ⟨by decide, claim6_sleep_no_underflow unit_state 16 [] 35 () () 0
    [Call.render (), Call.tick (), Call.tick ()] () () 3 (some 13) (by decide)⟩

/-- C8: `handle_tick` and `handle_render` never cause a state transition: in
the source their trait signatures return `()` (state.rs lines 32-33), so the
scheduler cannot assign a new state from them, and in any run trace the
dispatch immediately following a tick or render call operates on exactly the
same state value — only `handle_event` can change which state value the
scheduler holds. -/
theorem claim8_tick_render_no_transition (impl : State S D E) (spf : Nat)
    (sched : List (List E × Nat)) (s : S) (d : D) (accum : Nat)
    (t₁ : List (Call S E)) (s₀ : S) (c : Call S E) (t₂ : List (Call S E))
    (h : run_trace impl spf sched s d accum = t₁ ++ Call.tick s₀ :: c :: t₂ ∨
         run_trace impl spf sched s d accum = t₁ ++ Call.render s₀ :: c :: t₂) :
    c.stateOf = s₀ := by
  have hch := run_chained impl spf sched s d accum
  rcases h with h | h
  · rw [h] at hch
    exact chained_mid t₁ s (Call.tick s₀) c t₂ hch
  · rw [h] at hch
    exact chained_mid t₁ s (Call.render s₀) c t₂ hch

/-- Witness for C8 on a concrete run: the tick call after the render call
observes the same state value `1`. -/
theorem claim8_witness :
    run_trace count_state 16 [([()], 40)] 0 () 0 =
      [Call.event 0 () (Action.Done 1)] ++ Call.render 1 :: Call.tick 1 ::
        [Call.tick 1] ∧
    (Call.tick 1 : Call Nat Unit).stateOf = 1 :=
  ⟨by decide, claim8_tick_render_no_transition count_state 16 [([()], 40)] 0 () 0
    [Call.event 0 () (Action.Done 1)] 1 (Call.tick 1) [Call.tick 1]
    (Or.inr (by decide))⟩

/-- C10: within a single drain every queued event is delivered to
`handle_event` even after an earlier event of the same drain returned `Quit`
(the quit flag is consulted only after the drain completes), `handle_events`
returns `None` if and only if at least one event of the drain returned
`Quit`, and a `Done(next)` returned by a later event still replaces the
threaded state value before the following dispatch — the final threaded
value, which the quit exit then discards, is `last_next` of the whole
trace. -/
theorem claim10_drain_complete (impl : State S D E) (es : List E) (s : S) (d : D) :
    (handle_events impl es s d).1.length = es.length ∧
    ((handle_events impl es s d).2.1 = none ↔
      ∃ c ∈ (handle_events impl es s d).1, c.isQuitEvent = true) ∧
    chained s (handle_events impl es s d).1 ∧
    last_next s (handle_events impl es s d).1
      = (handle_events_go impl es s d false).2.1 := by
  have hq := handle_events_go_quit impl es s d false
  rw [Bool.false_or] at hq
  refine ⟨handle_events_go_length impl es s d false, ⟨?_, ?_⟩,
    handle_events_go_chained impl es s d false,
    handle_events_go_last impl es s d false⟩
  · intro hn
    simp only [handle_events] at hn
    split at hn
    · next hb =>
      rw [hq] at hb
      obtain ⟨c, hc, hpc⟩ := List.any_eq_true.mp hb
      exact ⟨c, hc, hpc⟩
    · simp at hn
  · intro hex
    obtain ⟨c, hc, hpc⟩ := hex
    have hb : (handle_events_go impl es s d false).2.2.2 = true := by
      rw [hq]
      exact List.any_eq_true.mpr ⟨c, hc, hpc⟩
    simp only [handle_events]
    simp [hb]

/-- Witness for C10 on a concrete drain: both events of the drain are
delivered (length 2) and the threaded state survives to the end. -/
theorem claim10_witness :
    (handle_events quit_state [true, false] 0 ()).1.length
      = ([true, false] : List Bool).length ∧
    last_next 0 (handle_events quit_state [true, false] 0 ()).1
      = (handle_events_go quit_state [true, false] 0 () false).2.1 :=
  ⟨(claim10_drain_complete quit_state [true, false] 0 ()).1,
   (claim10_drain_complete quit_state [true, false] 0 ()).2.2.2⟩

/-! ## Dispatcher (states! expansion) -/

theorem dispatch_arms_in_range (impls : Nat → Capability S D E P) :
    ∀ (caps : List Nat) (i : Nat) (hi : i < caps.length) (p : P) (d : D) (e : E),
      dispatch_event_arms impls caps i p d e
        = some ((impls (caps.get ⟨i, hi⟩)).handle_event d e p) ∧
      dispatch_tick_arms impls caps i p d
        = some ((impls (caps.get ⟨i, hi⟩)).handle_tick d p) ∧
      dispatch_render_arms impls caps i p d
        = some ((impls (caps.get ⟨i, hi⟩)).handle_render d p) := by
  intro caps
  induction caps with
  | nil => intro i hi; exact absurd hi (by simp)
  | cons c rest ih =>
    intro i hi p d e
    cases i with
    | zero => exact ⟨rfl, rfl, rfl⟩
    | succ i =>
      have hi' : i < rest.length := by simpa using hi
      exact ih i hi' p d e

theorem dispatch_arms_out_of_range (impls : Nat → Capability S D E P) :
    ∀ (caps : List Nat) (j : Nat), caps.length ≤ j →
      ∀ (p : P) (d : D) (e : E),
        dispatch_event_arms impls caps j p d e = none ∧
        dispatch_tick_arms impls caps j p d = none ∧
        dispatch_render_arms impls caps j p d = none := by
  intro caps
  induction caps with
  | nil => intro j hj p d e; exact ⟨rfl, rfl, rfl⟩
  | cons c rest ih =>
    intro j hj p d e
    cases j with
    | zero => simp at hj
    | succ j =>
      simp only [List.length_cons] at hj
      exact ih j (by omega) p d e

/-- C4: for every state-machine specification given to the `states!`
generator — modelled as the ordered list `caps` of the capability declared
for each variant — and every variant of the generated tagged union (an
in-range tag `i` together with its payload `p`), each of the three dispatch
operations reaches exactly the implementation of the capability declared for
that variant, with the variant's payload passed through as an extra
argument; and the generated match has no default/fallback arm: a tag beyond
the declared variants reaches no implementation at all. -/
theorem claim4_dispatch_total (impls : Nat → Capability S D E P)
    (caps : List Nat) (i : Nat) (hi : i < caps.length) (p : P) (d : D) (e : E) :
    dispatch_event_arms impls caps i p d e
      = some ((impls (caps.get ⟨i, hi⟩)).handle_event d e p) ∧
    dispatch_tick_arms impls caps i p d
      = some ((impls (caps.get ⟨i, hi⟩)).handle_tick d p) ∧
    dispatch_render_arms impls caps i p d
      = some ((impls (caps.get ⟨i, hi⟩)).handle_render d p) ∧
    (∀ j, caps.length ≤ j →
      dispatch_event_arms impls caps j p d e = none ∧
      dispatch_tick_arms impls caps j p d = none ∧
      dispatch_render_arms impls caps j p d = none) := by
  obtain ⟨h1, h2, h3⟩ := dispatch_arms_in_range impls caps i hi p d e
  exact ⟨h1, h2, h3, fun j hj => dispatch_arms_out_of_range impls caps j hj p d e⟩

/-- Witness for C4 at the repository's own test specification
`State { MainHandler Main(), TestHandler Test(test: usize) }` (caps `[0, 1]`):
tag `1` (`Test`) with payload `15` reaches capability `1` with the payload
passed through. -/
theorem claim4_witness :
    1 < ([0, 1] : List Nat).length ∧
    dispatch_event_arms test_caps [0, 1] 1 15 0 ()
      = some ((test_caps (([0, 1] : List Nat).get ⟨1, by decide⟩)).handle_event 0 () 15) :=
  ⟨by decide, (claim4_dispatch_total test_caps [0, 1] 1 (by decide) 15 0 ()).1⟩

/-! ## Construction -/

/-- C7: construction is two-stage and short-circuiting: a window-stage
failure yields `WindowError` and the data-stage initializer is never
consulted (the outcome does not depend on it); a `DataError` is possible
only after the window stage succeeded; and every outcome is an ordinary
returned value — `ok` or a tagged `WindowError`/`DataError` — never an
abort. -/
theorem claim7_two_stage_construction {W D' E1 E2 : Type}
    (wi : Except E1 W) (g g' : W → Except E2 D') :
    (∀ e : E1, wi = Except.error e →
      app_new wi g = Except.error (AppError.WindowError e) ∧
      app_new wi g = app_new wi g') ∧
    (∀ e2 : E2, app_new wi g = Except.error (AppError.DataError e2) →
      ∃ w, wi = Except.ok w ∧ g w = Except.error e2) ∧
    ((∃ w d, app_new wi g = Except.ok (w, d)) ∨
      (∃ e, app_new wi g = Except.error (AppError.WindowError e)) ∨
      (∃ e2, app_new wi g = Except.error (AppError.DataError e2))) := by
  refine ⟨?_, ?_, ?_⟩
  · intro e he
    subst he
    exact ⟨rfl, rfl⟩
  · intro e2 he
    cases wi with
    | error e => simp [app_new] at he
    | ok w =>
      cases hg : g w with
      | error e' =>
        refine ⟨w, rfl, ?_⟩
        simp only [app_new, hg, Except.error.injEq, AppError.DataError.injEq] at he
        rw [hg, he]
      | ok dv => simp [app_new, hg] at he
  · cases wi with
    | error e => exact Or.inr (Or.inl ⟨e, rfl⟩)
    | ok w =>
      cases hg : g w with
      | error e2 => exact Or.inr (Or.inr ⟨e2, by simp [app_new, hg]⟩)
      | ok dv => exact Or.inl ⟨w, dv, by simp [app_new, hg]⟩

/-- Witness for C7 at concrete initializers over `Nat`. -/
theorem claim7_witness :
    (app_new (Except.error 7 : Except Nat Nat)
        (fun w : Nat => (Except.ok (w + 1) : Except Nat Nat))
        = Except.error (AppError.WindowError 7) ∧
      app_new (Except.error 7 : Except Nat Nat)
        (fun w : Nat => (Except.ok (w + 1) : Except Nat Nat))
        = app_new (Except.error 7 : Except Nat Nat)
            (fun _ : Nat => (Except.error 9 : Except Nat Nat))) ∧
    (∃ w, (Except.ok 5 : Except Nat Nat) = Except.ok w ∧
      (fun _ : Nat => (Except.error 3 : Except Nat Nat)) w = Except.error 3) :=
  ⟨(claim7_two_stage_construction (Except.error 7 : Except Nat Nat)
      (fun w : Nat => (Except.ok (w + 1) : Except Nat Nat))
      (fun _ : Nat => (Except.error 9 : Except Nat Nat))).1 7 rfl,
    (claim7_two_stage_construction (Except.ok 5 : Except Nat Nat)
      (fun _ : Nat => (Except.error 3 : Except Nat Nat))
      (fun _ : Nat => (Except.error 3 : Except Nat Nat))).2.1 3 rfl⟩

/-! ## Degenerate frame budget -/

theorem spf_millis_eq_zero (fps : Nat) (h : 1000 < fps) : spf_millis fps = 0 := by
  have hne : fps ≠ 0 := by omega
  simp [spf_millis, hne, Nat.div_eq_of_lt h]

theorem spf_millis_pos_iff (fps : Nat) (h : 0 < fps) :
    0 < spf_millis fps ↔ fps ≤ 1000 := by
  have hne : fps ≠ 0 := by omega
  simp only [spf_millis, if_neg hne]
  constructor
  · intro hp
    by_contra hgt
    rw [Nat.div_eq_of_lt (by omega)] at hp
    exact absurd hp (by simp)
  · intro hle
    exact Nat.div_pos hle h

theorem run_loop_no_diverge (impl : State S D E) (spf : Nat) (hspf : 0 < spf) :
    ∀ (sched : List (List E × Nat)) (s : S) (d : D) (accum : Nat)
      (tr : List (Call S E)),
      run_loop impl spf sched s d accum ≠ RunOut.diverged tr := by
  intro sched
  induction sched with
  | nil => intro s d accum tr h; simp [run_loop] at h
  | cons f rest ih =>
    obtain ⟨evs, el⟩ := f
    intro s d accum tr h
    rcases hev : handle_events impl evs s d with ⟨etr, os, d₀⟩
    cases os with
    | none =>
      have hpf := process_frame_quit_eq impl spf evs el s d accum hev
      simp only [run_loop, hpf] at h
      simp at h
    | some s₀ =>
      have hpf := process_frame_running_eq impl spf hspf evs el s d accum hev
      simp only [run_loop, hpf] at h
      cases hr : run_loop impl spf rest s₀
          ((impl.handle_tick s₀)^[(accum + el) / spf] (impl.handle_render s₀ d₀))
          ((accum + el) % spf) with
      | finished tr₂ c d₂ a₂ => rw [hr] at h; simp at h
      | diverged tr₂ => exact ih _ _ _ tr₂ hr

/-- C9: for every `fps > 1000` the frame budget computed as
`Duration::from_millis((1000.0 / fps as f64) as u64)` is the zero duration;
with `spf = 0` the catch-up condition `accum >= spf` holds on every check
while subtracting `spf` leaves the accumulator unchanged, so the catch-up
loop never terminates for any amount of fuel, and a loop iteration that
survives its event phase diverges; the budget is strictly positive exactly
when `1 ≤ fps ≤ 1000` (for `fps = 0` the saturating cast yields `u64::MAX`,
also positive), and with `0 < spf` every iteration terminates, so `run` can
only exit — on `Quit` — under that precondition. -/
theorem claim9_fps_above_1000_diverges (impl : State S D E) :
    (∀ fps : Nat, 1000 < fps → spf_millis fps = 0) ∧
    (∀ (s : S) (d : D) (accum fuel : Nat), catch_up impl 0 s fuel accum d = none) ∧
    (∀ fps : Nat, 0 < fps → (0 < spf_millis fps ↔ fps ≤ 1000)) ∧
    (∀ (fps : Nat) (evs : List E) (el : Nat) (s : S) (d : D) (accum : Nat)
      (etr : List (Call S E)) (s' : S) (d' : D), 1000 < fps →
      handle_events impl evs s d = (etr, some s', d') →
      process_frame impl (spf_millis fps) evs el s d accum
        = FrameResult.diverged (etr ++ [Call.render s'])) ∧
    (∀ (spf : Nat), 0 < spf → ∀ (sched : List (List E × Nat)) (s : S) (d : D)
      (accum : Nat) (tr : List (Call S E)),
      run_loop impl spf sched s d accum ≠ RunOut.diverged tr) := by
  refine ⟨spf_millis_eq_zero, ?_, spf_millis_pos_iff, ?_, ?_⟩
  · intro s d accum fuel
    exact catch_up_zero impl s fuel accum d
  · intro fps evs el s d accum etr s' d' hf hev
    rw [spf_millis_eq_zero fps hf]
    exact process_frame_zero_spf impl evs el s d accum hev
  · intro spf hspf
    exact run_loop_no_diverge impl spf hspf

/-- Witness for C9 at `fps = 1001` and concrete frames. -/
theorem claim9_witness :
    spf_millis 1001 = 0 ∧
    catch_up unit_state 0 () 5 7 () = none ∧
    (0 < spf_millis 60 ↔ 60 ≤ 1000) ∧
    process_frame unit_state (spf_millis 1001) [] 3 () () 0
      = FrameResult.diverged ([] ++ [Call.render ()]) ∧
    run_loop unit_state 16 [([], 3)] () () 0 ≠ RunOut.diverged [] :=
  ⟨(claim9_fps_above_1000_diverges unit_state).1 1001 (by decide),
   (claim9_fps_above_1000_diverges unit_state).2.1 () () 7 5,
   (claim9_fps_above_1000_diverges unit_state).2.2.1 60 (by decide),
   (claim9_fps_above_1000_diverges unit_state).2.2.2.1 1001 [] 3 () () 0 [] () ()
     (by decide) (by decide),
   (claim9_fps_above_1000_diverges unit_state).2.2.2.2 16 (by decide) [([], 3)]
     () () 0 []⟩

end Stateloop
